import Mathlib

/-!
funcpp: a shallow embedding of the compile-time list and optional families

The library computes on C++ *types*.  A type is a value of `Ty`; a class
template with a member `type` is a function into `Result` (the member exists,
or the instantiation is rejected); a template template parameter
`template<typename> typename F` is a function `Ty → Option Ty` (`F<A>::type`
exists or not).  Specialisation selection is pattern matching, a `requires`
constraint is a guard, and `static_assert` is a check on the computed member.
-/

namespace funcpp

/-! ## The universe of types -/

/-- Fundamental types that occur in the sources and tests. -/
inductive Scalar
  | void | bool
  | char | short | int | long | llong
  | uchar | ushort | uint | ulong | ullong
  | float | double
  deriving DecidableEq, Repr

/-- Values that a static data member or a template argument can hold. -/
inductive Val
  /-- a value of an integral type; `false` and `true` are 0 and 1 -/
  | int (i : Int)
  /-- a finite floating-point value, by sign bit and magnitude -/
  | floating (negative : Bool) (magnitude : ℚ)
  /-- an infinity of a floating-point type -/
  | infinite (negative : Bool)
  /-- a NaN of a floating-point type -/
  | nan
  /-- the null pointer value -/
  | nullptr
  /-- the address of an object or function, which is never null -/
  | address (object : Nat)
  /-- a value of a class or enumeration type; `zero` is what comparing it with `0` by
  `==` evaluates to, `none` when that comparison is ill-formed -/
  | other (tag : Nat) (zero : Option Bool)
  deriving DecidableEq, Repr

/-- C++ types, as far as the library can tell them apart. -/
inductive Ty
  /-- a fundamental type -/
  | scalar (s : Scalar)
  /-- pointer `A *` -/
  | ptr (a : Ty)
  /-- array `A[n]` -/
  | array (a : Ty) (n : Nat)
  /-- any other class or enumeration type, identified by a tag -/
  | named (tag : Nat)
  /-- a class outside the library that declares `static constexpr T value = v` -/
  | valued (tag : Nat) (T : Ty) (v : Val)
  /-- The type `constant<A, a>` (funcpp-common.cc:20) -/
  | constant (A : Ty) (a : Val)
  /-- The type `bool_constant<a>` (funcpp-common.cc:33) -/
  | bool_constant (a : Bool)
  /-- The type `false_type` (funcpp-common.cc:43) -/
  | false_type
  /-- The type `true_type` (funcpp-common.cc:52) -/
  | true_type
  /-- The type `zero_type<A>` (funcpp-common.cc:71) -/
  | zero_type (A : Ty)
  /-- The type `one_type<A>` (funcpp-common.cc:93) -/
  | one_type (A : Ty)
  /-- The type `_nil` (funcpp-list.cc:19) -/
  | _nil
  /-- The type `_cons<A, B>` (funcpp-list.cc:33) -/
  | _cons (A B : Ty)
  /-- The type `_nothing` (funcpp-maybe.cc:16) -/
  | _nothing
  /-- The type `_some<A>` (funcpp-maybe.cc:25) -/
  | _some (A : Ty)
  deriving DecidableEq, Repr

/-- Why an instantiation produces no result. -/
inductive Reject
  /-- the selected template is only declared, or a member that is named does not exist -/
  | undefined
  /-- a constrained template parameter (`list_type B`, `maybe_type MA`) is not satisfied -/
  | constraint
  /-- a `static_assert` inside the instantiated class fails -/
  | assertFailed
  deriving DecidableEq, Repr

/-- Outcome of naming a member of an instantiation. -/
abbrev Result (α : Type) := Except Reject α

/-- Naming `F<A>::type` for a template argument `F`: absent members are `undefined`. -/
def member {α : Type} : Option α → Result α
  | .some t => .ok t
  | .none => .error .undefined

/-- A class template seen as a template argument: only whether `::type` exists matters. -/
def asArg (r : Result Ty) : Option Ty :=
  match r with
  | .ok t => .some t
  | .error _ => .none

/-! ## funcpp-common.cc -/

/-- Inclusive range of the integral types (LP64: 8-bit signed `char`, 16-bit `short`,
32-bit `int`, 64-bit `long` and `long long`); `none` for the other types. -/
def Scalar.range : Scalar → Option (Int × Int)
  | .bool => .some (0, 1)
  | .char => .some (-128, 127)
  | .short => .some (-32768, 32767)
  | .int => .some (-2147483648, 2147483647)
  | .long => .some (-9223372036854775808, 9223372036854775807)
  | .llong => .some (-9223372036854775808, 9223372036854775807)
  | .uchar => .some (0, 255)
  | .ushort => .some (0, 65535)
  | .uint => .some (0, 4294967295)
  | .ulong => .some (0, 18446744073709551615)
  | .ullong => .some (0, 18446744073709551615)
  | _ => .none

/-- Modulus of the unsigned types that are not promoted to `int`: their arithmetic wraps. -/
def Scalar.modulus : Scalar → Option Int
  | .uint => .some 4294967296
  | .ulong => .some 18446744073709551616
  | .ullong => .some 18446744073709551616
  | _ => .none

/-- Whether the integer `a` is a value of the integral type `A`: then the literal `a` is a
template argument for a parameter of type `A`.  An integer literal converts to no other
type in a template argument (no floating-integral conversion, no null pointer conversion
from `int`), so `zero_type<A>` and `one_type<A>` can be instantiated for integral `A`
only. -/
def fits (A : Ty) (a : Int) : Bool :=
  match A with
  | .scalar s =>
    match s.range with
    | .some (lo, hi) => decide (lo ≤ a) && decide (a ≤ hi)
    | .none => false
  | _ => false

/-- Whether `v` is a value of type `A`, so that `constant<A, v>` is a type: an integer in
the range of an integral `A`, a floating-point value for `float` and `double`, a pointer
value for a pointer type, a value of class or enumeration type for any other type but
`void` and arrays. -/
def has_value (A : Ty) (v : Val) : Bool :=
  match v, A with
  | .int i, A => fits A i
  | .floating _ m, .scalar .float => decide (0 ≤ m)
  | .floating _ m, .scalar .double => decide (0 ≤ m)
  | .infinite _, .scalar .float => true
  | .infinite _, .scalar .double => true
  | .nan, .scalar .float => true
  | .nan, .scalar .double => true
  | .nullptr, .ptr _ => true
  | .address _, .ptr _ => true
  | .other _ _, .scalar _ => false
  | .other _ _, .ptr _ => false
  | .other _ _, .array _ _ => false
  | .other _ _, _ => true
  | _, _ => false

/-- Static member `value_type` (funcpp-common.cc:23), inherited by the derived constants. -/
def value_type : Ty → Option Ty
  | .constant A a => if has_value A a then .some A else .none
  | .bool_constant _ => .some (.scalar .bool)
  | .false_type => .some (.scalar .bool)
  | .true_type => .some (.scalar .bool)
  | .zero_type A => if fits A 0 then .some A else .none
  | .one_type A => if fits A 1 then .some A else .none
  | _ => .none

/-- Static member `value` (funcpp-common.cc:25), inherited by the derived constants; a
class outside the library has the one it declares. -/
def value : Ty → Option Val
  | .constant A a => if has_value A a then .some a else .none
  | .bool_constant a => .some (.int (if a then 1 else 0))
  | .false_type => .some (.int 0)
  | .true_type => .some (.int 1)
  | .zero_type A => if fits A 0 then .some (.int 0) else .none
  | .one_type A => if fits A 1 then .some (.int 1) else .none
  | .valued _ T v => if has_value T v then .some v else .none
  | _ => .none

/-- The member `refl<A, B>::value` (funcpp-common.cc:111-122). -/
def refl (A B : Ty) : Bool := decide (A = B)

/-! ## funcpp-list.cc: recogniser and constructors -/

/-- The member `is_list<A>::value` (funcpp-list.cc:70-81). -/
def is_list : Ty → Bool
  | ._nil => true
  | ._cons _ B => is_list B
  | _ => false

/-- The check `static_assert(list_type<type>)` on a computed member `type`. -/
def assert_list (t : Ty) : Result Ty :=
  if is_list t then .ok t else .error .assertFailed

/-- The member `nil::type` (funcpp-list.cc:100-103). -/
def nil : Ty := ._nil

/-- The member `cons<A, B>::type` (funcpp-list.cc:116-120): `B` is constrained by `list_type`. -/
def cons (A B : Ty) : Result Ty :=
  if is_list B then .ok (._cons A B) else .error .constraint

/-- The member `make_list<As...>::type` (funcpp-list.cc:131-147). -/
def make_list : List Ty → Result Ty
  | [] => assert_list ._nil
  | A :: As => do
    let tail ← make_list As
    assert_list (._cons A tail)

/-! ## funcpp-maybe.cc: recogniser and constructors -/

/-- The member `is_maybe<A>::value` (funcpp-maybe.cc:48-58). -/
def is_maybe : Ty → Bool
  | ._nothing => true
  | ._some _ => true
  | _ => false

/-- The check `static_assert(maybe_type<type>)` on a computed member `type`. -/
def assert_maybe (t : Ty) : Result Ty :=
  if is_maybe t then .ok t else .error .assertFailed

/-- The member `nothing::type` (funcpp-maybe.cc:78-81). -/
def nothing : Ty := ._nothing

/-- The member `some<A>::type` (funcpp-maybe.cc:90-94). -/
def some (A : Ty) : Ty := ._some A

/-! ## map and fold: generic templates and the specialisations of both families -/

/-- The member `map<F, A>::type`: the generic template (funcpp-common.cc:135-139), the list
specialisations (funcpp-list.cc:159-193) and the optional ones (funcpp-maybe.cc:105-136). -/
def map (F : Ty → Option Ty) : Ty → Result Ty
  | ._nil => assert_list ._nil
  | ._cons A B =>
    if is_list B then do
      let head ← member (F A)
      let tail ← map F B
      assert_list (._cons head tail)
    else member (F (._cons A B))
  | ._nothing => assert_maybe ._nothing
  | ._some A => do
    let thing ← member (F A)
    assert_maybe (._some thing)
  | A => member (F A)

/-- The member `fold<F, I, A>::type`: the generic template (funcpp-common.cc:154-158), the list
specialisations (funcpp-list.cc:200-224) and the optional ones (funcpp-maybe.cc:143-163). -/
def fold (F : Ty → Ty → Option Ty) (I : Ty) : Ty → Result Ty
  | ._nil => .ok I
  | ._cons A B =>
    if is_list B then do
      let acc ← member (F I A)
      fold F acc B
    else member (F I (._cons A B))
  | ._nothing => .ok I
  | ._some A => member (F I A)
  | A => member (F I A)

/-! ## count -/

/-- The template argument `1 + A::value` of type `A::value_type = T`
(funcpp-list.cc:237): unsigned arithmetic of rank at least `int` wraps; in every other
integral type the sum has to be a value of `T` (signed overflow is not a constant
expression, a narrowing conversion is ill-formed).  Only integral values are added:
`_plus1` is not exported, and its one use, in `count`, is on `unsigned long long`
accumulators. -/
def plus_one (T : Ty) (v : Val) : Option Val :=
  match T, v with
  | .scalar s, .int i =>
    match s.modulus with
    | .some m => .some (.int ((1 + i) % m))
    | .none => if fits T (1 + i) then .some (.int (1 + i)) else .none
  | _, _ => .none

/-- The member `_plus1<A, B>::type` (funcpp-list.cc:234-238); the second argument is unnamed. -/
def _plus1 (A _B : Ty) : Option Ty :=
  match value_type A, value A with
  | .some T, .some v => (plus_one T v).map (Ty.constant T)
  | _, _ => .none

/-- The member `count<A>::value`: no generic definition (funcpp-common.cc:171-172); lists fold `_plus1`
from `zero_type<unsigned long long>` (funcpp-list.cc:252-257); the optional family inherits
from `zero_type` and `one_type` (funcpp-maybe.cc:172-191). -/
def count : Ty → Result Val
  | ._nothing => member (value (.zero_type (.scalar .ullong)))
  | ._some _ => member (value (.one_type (.scalar .ullong)))
  | A =>
    if is_list A then do
      let t ← fold _plus1 (.zero_type (.scalar .ullong)) A
      member (value t)
    else .error .undefined

/-! ## join1 -/

/-- Number of cells of a chain of `_cons`. -/
def cells : Ty → Nat
  | ._cons _ B => cells B + 1
  | _ => 0

/-- Number of outer cells plus the number of cells of every head. -/
def weight : Ty → Nat
  | ._cons A B => cells A + weight B + 1
  | _ => 0

/-- The member `join1<A>::type`: no generic definition (funcpp-common.cc:183-184); the constrained
declarations `join1<list_type A>` and `join1<maybe_type A>` have no body either
(funcpp-list.cc:269-270, funcpp-maybe.cc:203-204); defined are the three list
specialisations (funcpp-list.cc:273-293) and the three optional ones
(funcpp-maybe.cc:207-227). -/
def join1 : Ty → Result Ty
  | ._nil => assert_list ._nil
  | ._cons ._nil B =>
    if is_list B then do
      let t ← join1 B
      assert_list t
    else .error .undefined
  | ._cons (._cons A B) C =>
    if is_list B && is_list C then do
      let t ← join1 (._cons B C)
      assert_list (._cons A t)
    else .error .undefined
  | ._nothing => assert_maybe ._nothing
  | ._some ._nothing => assert_maybe ._nothing
  | ._some (._some A) => assert_maybe (._some A)
  | _ => .error .undefined
termination_by t => weight t
decreasing_by
  all_goals simp only [weight, cells]
  all_goals omega

/-! ## pure and bind of the list family (funcpp-list.cc:299-314) -/

/-- The member `pure<A>::type` of the list partition (funcpp-list.cc:299-304). -/
def list.pure (A : Ty) : Result Ty := do
  let t ← cons A ._nil
  assert_list t

/-- The member `bind<MA, F>::type` of the list partition (funcpp-list.cc:309-314): `MA` is constrained
by `list_type`. -/
def list.bind (MA : Ty) (F : Ty → Option Ty) : Result Ty :=
  if is_list MA then do
    let m ← map F MA
    let t ← join1 m
    assert_list t
  else .error .constraint

/-! ## pure and bind of the optional family (funcpp-maybe.cc:233-264) -/

/-- The member `pure<A>::type` of the optional partition (funcpp-maybe.cc:233-238). -/
def maybe.pure (A : Ty) : Result Ty :=
  assert_maybe (some A)

/-- The member `bind<MA, F>::type` of the optional partition (funcpp-maybe.cc:243-264): the primary
template is constrained by `maybe_type` and only declared. -/
def maybe.bind (MA : Ty) (F : Ty → Option Ty) : Result Ty :=
  match MA with
  | ._nothing => assert_maybe ._nothing
  | ._some A => do
    let t ← member (F A)
    assert_maybe t
  | _ => .error .constraint

/-! ## Specification vocabulary: lists of types -/

/-- The list type whose elements are `As`, written out cell by cell. -/
def chain (As : List Ty) : Ty := As.foldr Ty._cons Ty._nil

/-- The elements of a chain of cells, head first. -/
def elems : Ty → List Ty
  | ._cons A B => A :: elems B
  | _ => []

/-- Invariant of the accumulator of `count`: an `unsigned long long` constant of value `v`. -/
def counts (acc : Ty) (v : Int) : Prop :=
  value_type acc = Option.some (.scalar .ullong) ∧ value acc = Option.some (.int v) ∧
    0 ≤ v ∧ v < 18446744073709551616

/-- The optional `bind` written the way the list partition writes its own
(funcpp-list.cc:309-314): `map`, then `join1`, with the family's constraint and
`static_assert`.  Not in the sources; the definition `maybe.bind` is compared with it. -/
def maybe.bind_by_map_join1 (MA : Ty) (F : Ty → Option Ty) : Result Ty :=
  if is_maybe MA then do
    let m ← map F MA
    let t ← join1 m
    assert_maybe t
  else .error .constraint

/-- The types the claims say `join1` is defined on: a list whose elements are all lists,
`Nothing`, or `Some` of an optional. -/
def joinable (A : Ty) : Prop :=
  (is_list A = true ∧ ∀ L ∈ elems A, is_list L = true) ∨ A = Ty._nothing ∨
    ∃ M, A = Ty._some M ∧ is_maybe M = true

/-- Elements of the list a transformer yields at `a`; empty when it yields none. -/
def elems_at (F : Ty → Option Ty) (a : Ty) : List Ty :=
  match F a with
  | .some R => elems R
  | .none => []

/-- The transformer `H` of the associativity law: `H<x>::type` is
`bind<F<x>::type, G>::type` of the list family. -/
def list.bind_after (F G : Ty → Option Ty) (x : Ty) : Option Ty :=
  match F x with
  | .some R => asArg (list.bind R G)
  | .none => .none

/-- The accumulator transformer that adds the count of an element, written after `_plus1`
(funcpp-list.cc:234-238) as `constant<typename A::value_type, A::value + count<B>::value>`.
Not in the sources; `count` of a flattened list is compared with the fold of it.  The sum
has an `unsigned long long` operand, so it is taken modulo `2^64`, and it has to be a value
of the accumulator's value type. -/
def plus_count (A B : Ty) : Option Ty :=
  match value_type A, value A, count B with
  | .some T, .some (.int v), .ok (.int c) =>
    if fits T ((v + c) % 18446744073709551616) then
      .some (.constant T (.int ((v + c) % 18446744073709551616)))
    else .none
  | _, _, _ => .none

/-! ## Fixtures of test/list.cc -/

/-- The type `L1` of `test_list_join` (test/list.cc:64). -/
def test_list_join.L1 : Ty :=
  chain [.scalar .char, .scalar .short, .scalar .int, .scalar .long]

/-- The type `L2` of `test_list_join` (test/list.cc:65). -/
def test_list_join.L2 : Ty := chain [.scalar .float, .scalar .double]

/-- The type `L3` of `test_list_join` (test/list.cc:66). -/
def test_list_join.L3 : Ty := chain [.scalar .void, .ptr (.scalar .void)]

/-- The type `Lx` of `test_list_join` (test/list.cc:68). -/
def test_list_join.Lx : Ty :=
  chain [.scalar .char, .scalar .short, .scalar .int, .scalar .long,
    .scalar .float, .scalar .double, .scalar .void, .ptr (.scalar .void)]

/-- The template `make_unsigned` of `test_list_map` (test/list.cc:31-36): declared for every type,
defined for five. -/
def test_list_map.make_unsigned : Ty → Option Ty
  | .scalar .char => .some (.scalar .uchar)
  | .scalar .short => .some (.scalar .ushort)
  | .scalar .int => .some (.scalar .uint)
  | .scalar .long => .some (.scalar .ulong)
  | .scalar .llong => .some (.scalar .ullong)
  | _ => .none

/-- Arguments of `Ls` in `test_list_map` (test/list.cc:37-42). -/
def test_list_map.Ls : List Ty :=
  [.scalar .char, .scalar .short, .scalar .int, .scalar .long, .scalar .llong]

/-- Arguments of `Lx` in `test_list_map` (test/list.cc:44-49). -/
def test_list_map.Lx : List Ty :=
  [.scalar .uchar, .scalar .ushort, .scalar .uint, .scalar .ulong, .scalar .ullong]

/-! ## Basic facts -/

@[simp] theorem ok_bind {α β : Type} (a : α) (f : α → Result β) :
    (Except.ok a >>= f) = f a := rfl

@[simp] theorem error_bind {α β : Type} (e : Reject) (f : α → Result β) :
    ((Except.error e : Result α) >>= f) = Except.error e := rfl

@[simp] theorem member_some {α : Type} (a : α) :
    member (Option.some a) = .ok a := rfl

@[simp] theorem member_none {α : Type} :
    member (Option.none : Option α) = .error .undefined := rfl

@[simp] theorem chain_nil : chain [] = Ty._nil := rfl

@[simp] theorem chain_cons (A : Ty) (As : List Ty) :
    chain (A :: As) = Ty._cons A (chain As) := rfl

@[simp] theorem is_list_chain (As : List Ty) : is_list (chain As) = true := by
  induction As with
  | nil => rfl
  | cons A As ih => simpa [is_list] using ih

@[simp] theorem elems_chain (As : List Ty) : elems (chain As) = As := by
  induction As with
  | nil => rfl
  | cons A As ih => rw [chain_cons, elems, ih]

theorem chain_elems : ∀ L : Ty, is_list L = true → chain (elems L) = L
  | ._nil, _ => rfl
  | ._cons A B, h => by
    have hB : is_list B = true := by simpa [is_list] using h
    simp [elems, chain_elems B hB]
  | .scalar _, h | .ptr _, h | .array _ _, h | .named _, h | .valued _ _ _, h
  | .constant _ _, h
  | .bool_constant _, h | .false_type, h | .true_type, h | .zero_type _, h
  | .one_type _, h | ._nothing, h | ._some _, h => by simp [is_list] at h

theorem assert_list_of {t : Ty} (h : is_list t = true) : assert_list t = .ok t := by
  simp [assert_list, h]

theorem make_list_eq (As : List Ty) : make_list As = .ok (chain As) := by
  induction As with
  | nil => rfl
  | cons A As ih => simp [make_list, ih, assert_list, is_list]

/-! ## join1 on lists of lists -/

theorem join1_cons_chain (Bs : List Ty) (C R : Ty) (hC : is_list C = true)
    (hR : is_list R = true) (h : join1 C = .ok R) :
    join1 (Ty._cons (chain Bs) C) = .ok (Bs.foldr Ty._cons R) := by
  induction Bs with
  | nil =>
    rw [chain_nil, join1]
    simp [hC, h, assert_list_of hR]
  | cons A Bs ih =>
    have hT : is_list (Bs.foldr Ty._cons R) = true := by
      clear ih
      induction Bs with
      | nil => simpa using hR
      | cons X Xs ihX => simpa [is_list] using ihX
    rw [chain_cons, join1]
    simp [hC, ih, assert_list, is_list, hT]

theorem foldr_cons_chain (Bs Cs : List Ty) :
    Bs.foldr Ty._cons (chain Cs) = chain (Bs ++ Cs) := by
  simp [chain, List.foldr_append]

theorem join1_chain (LLs : List (List Ty)) :
    join1 (chain (LLs.map chain)) = .ok (chain LLs.flatten) := by
  induction LLs with
  | nil => simp [join1, assert_list, is_list]
  | cons Bs LLs ih =>
    rw [List.map_cons, chain_cons,
      join1_cons_chain Bs _ _ (is_list_chain _) (is_list_chain _) ih, foldr_cons_chain]
    simp

theorem map_chain_elems (Ls : List Ty) (h : ∀ L ∈ Ls, is_list L = true) :
    Ls.map (fun L => chain (elems L)) = Ls := by
  induction Ls with
  | nil => rfl
  | cons L Ls ih =>
    simp only [List.map_cons]
    rw [chain_elems L (h L (List.mem_cons_self _ _)),
      ih (fun M hM => h M (List.mem_cons_of_mem _ hM))]

theorem join1_list_of_lists (LL : Ty) (hLL : is_list LL = true)
    (hin : ∀ L ∈ elems LL, is_list L = true) :
    join1 LL = .ok (chain ((elems LL).map elems).flatten) := by
  have h := join1_chain ((elems LL).map elems)
  rw [List.map_map] at h
  have hm : List.map (chain ∘ elems) (elems LL) = elems LL := map_chain_elems _ hin
  rw [hm, chain_elems LL hLL] at h
  exact h

/-! ## map on lists -/

theorem map_chain (F : Ty → Option Ty) (As Bs : List Ty)
    (h : List.Forall₂ (fun a b => F a = Option.some b) As Bs) :
    map F (chain As) = .ok (chain Bs) := by
  induction h with
  | nil => rfl
  | cons hab _ ih =>
    rw [chain_cons, map]
    simp [hab, ih, member, assert_list, is_list]

theorem exists_images (F : Ty → Option Ty) (As : List Ty)
    (h : ∀ a ∈ As, (F a).isSome = true) :
    ∃ Bs, List.Forall₂ (fun a b => F a = Option.some b) As Bs := by
  induction As with
  | nil => exact ⟨[], .nil⟩
  | cons A As ih =>
    obtain ⟨Bs, hBs⟩ := ih (fun a ha => h a (List.mem_cons_of_mem _ ha))
    obtain ⟨b, hb⟩ := Option.isSome_iff_exists.mp (h A (List.mem_cons_self _ _))
    exact ⟨b :: Bs, .cons hb hBs⟩

/-! ## fold on lists -/

theorem fold_chain (F : Ty → Ty → Option Ty) (I : Ty) (As : List Ty) :
    fold F I (chain As) = member (As.foldlM F I) := by
  induction As generalizing I with
  | nil => rfl
  | cons A As ih =>
    rw [chain_cons, fold, List.foldlM_cons]
    cases hF : F I A with
    | none => simp [member]
    | some acc => simp [member, ih]

/-! ## count on lists -/

theorem counts_zero : counts (.zero_type (.scalar .ullong)) 0 := by
  simp [counts, value_type, value, fits, Scalar.range]

theorem plus1_counts {acc : Ty} {v : Int} (h : counts acc v) (A : Ty) :
    ∃ acc2, _plus1 acc A = Option.some acc2 ∧
      counts acc2 ((1 + v) % 18446744073709551616) := by
  obtain ⟨ht, hv, h0, h1⟩ := h
  refine ⟨.constant (.scalar .ullong) (.int ((1 + v) % 18446744073709551616)), ?_, ?_⟩
  · simp [_plus1, ht, hv, plus_one, Scalar.modulus]
  · have hlo : 0 ≤ (1 + v) % 18446744073709551616 := by omega
    have hhi : (1 + v) % 18446744073709551616 ≤ 18446744073709551615 := by omega
    simp [counts, value_type, value, has_value, fits, Scalar.range, hlo, hhi]
    omega

theorem fold_plus1_chain (As : List Ty) (acc : Ty) (v : Int) (h : counts acc v) :
    (fold _plus1 acc (chain As) >>= fun t => member (value t))
      = .ok (.int ((v + As.length) % 18446744073709551616)) := by
  induction As generalizing acc v with
  | nil =>
    obtain ⟨_, hv, h0, h1⟩ := h
    have : v % 18446744073709551616 = v := by omega
    simp [fold, hv, member, this]
  | cons A As ih =>
    obtain ⟨acc2, h2, hc⟩ := plus1_counts h A
    rw [chain_cons, fold]
    simp only [is_list_chain, if_true, h2, member_some, ok_bind]
    rw [ih acc2 _ hc]
    congr 2
    simp only [List.length_cons, Nat.cast_add, Nat.cast_one]
    omega

theorem count_chain (As : List Ty) :
    count (chain As) = .ok (.int ((As.length : Int) % 18446744073709551616)) := by
  have h := fold_plus1_chain As _ 0 counts_zero
  rw [Int.zero_add] at h
  cases As with
  | nil => simpa [count, is_list] using h
  | cons A As =>
    rw [chain_cons] at h ⊢
    rw [count]
    · simpa [is_list] using h
    · simp
    · simp

theorem foldlM_total (f : Ty → Ty → Ty) (I : Ty) (As : List Ty) :
    As.foldlM (fun J X => Option.some (f J X)) I = Option.some (As.foldl f I) := by
  induction As generalizing I with
  | nil => rfl
  | cons A As ih => rw [List.foldlM_cons, List.foldl_cons, ← ih]; rfl

/-! ## pure and bind -/

theorem join1_nil : join1 Ty._nil = .ok Ty._nil := by
  simp [join1, assert_list, is_list]

theorem assert_maybe_of {t : Ty} (h : is_maybe t = true) : assert_maybe t = .ok t := by
  simp [assert_maybe, h]

theorem join1_singleton (R : Ty) (hR : is_list R = true) :
    join1 (Ty._cons R Ty._nil) = .ok R := by
  have h := join1_cons_chain (elems R) Ty._nil Ty._nil rfl rfl join1_nil
  rw [chain_elems R hR] at h
  rw [h]
  exact congrArg Except.ok (chain_elems R hR)

theorem list_pure_eq (A : Ty) : list.pure A = .ok (Ty._cons A Ty._nil) := rfl

theorem forall₂_pure (As : List Ty) :
    List.Forall₂ (fun a b => asArg (list.pure a) = Option.some b) As
      (As.map fun a => chain [a]) := by
  induction As with
  | nil => exact .nil
  | cons A As ih => exact .cons rfl ih

theorem flatten_singletons (As : List Ty) : (As.map fun a => [a]).flatten = As := by
  induction As with
  | nil => rfl
  | cons A As ih => simp [ih]

theorem list_bind_pure (As : List Ty) :
    list.bind (chain As) (fun A => asArg (list.pure A)) = .ok (chain As) := by
  have hm := map_chain _ As _ (forall₂_pure As)
  have hj := join1_chain (As.map fun a => [a])
  rw [List.map_map, flatten_singletons] at hj
  have he : As.map (chain ∘ fun a => [a]) = As.map fun a => chain [a] := rfl
  rw [he] at hj
  rw [list.bind, if_pos (is_list_chain _), hm, ok_bind, hj, ok_bind,
    assert_list_of (is_list_chain _)]

theorem foldr_cons_eq (As : List Ty) :
    As.foldr (fun A tail => tail >>= cons A) (.ok nil) = .ok (chain As) := by
  induction As with
  | nil => rfl
  | cons A As ih => simp [ih, cons]

theorem is_list_foldr (As : List Ty) (E : Ty) :
    is_list (As.foldr Ty._cons E) = is_list E := by
  induction As with
  | nil => rfl
  | cons A As ih => simpa [is_list] using ih

/-! ## Results and rejections -/

theorem bind_eq_ok {α β : Type} (x : Result α) (f : α → Result β) (b : β) :
    (x >>= f) = .ok b ↔ ∃ a, x = .ok a ∧ f a = .ok b := by
  cases x with
  | error e => simp
  | ok a => simp

theorem assert_list_eq_ok (t T : Ty) :
    assert_list t = .ok T ↔ is_list t = true ∧ T = t := by
  unfold assert_list
  by_cases h : is_list t = true
  · simp [h, eq_comm]
  · simp [h]

theorem assert_maybe_eq_ok (t T : Ty) :
    assert_maybe t = .ok T ↔ is_maybe t = true ∧ T = t := by
  unfold assert_maybe
  by_cases h : is_maybe t = true
  · simp [h, eq_comm]
  · simp [h]

theorem chain_injective (As Bs : List Ty) (h : chain As = chain Bs) : As = Bs := by
  have := congrArg elems h
  simpa using this

/-! ## Where count and join1 are defined -/

theorem joinable_of_join1 (A : Ty) : ∀ T, join1 A = .ok T → joinable A := by
  induction A using join1.induct with
  | case1 => intro T _; exact .inl ⟨rfl, by simp [elems]⟩
  | case2 B hB ih =>
    intro T h
    rw [join1] at h
    simp only [hB, if_true, bind_eq_ok] at h
    obtain ⟨t, ht, _⟩ := h
    rcases ih t ht with ⟨_, hin⟩ | rfl | ⟨M, rfl, _⟩
    · exact .inl ⟨by simpa [is_list] using hB, by simpa [elems, is_list] using hin⟩
    · simp [is_list] at hB
    · simp [is_list] at hB
  | case3 B hB =>
    intro T h
    rw [join1] at h
    simp [hB] at h
  | case4 A B C hBC ih =>
    intro T h
    rw [join1] at h
    simp only [hBC, if_true, bind_eq_ok] at h
    obtain ⟨t, ht, _⟩ := h
    have hB : is_list B = true := by simp at hBC; exact hBC.1
    have hC : is_list C = true := by simp at hBC; exact hBC.2
    rcases ih t ht with ⟨_, hin⟩ | h0 | ⟨M, h0, _⟩
    · refine .inl ⟨by simpa [is_list] using hC, ?_⟩
      intro L hL
      simp only [elems, List.mem_cons] at hL hin
      rcases hL with rfl | hL
      · simpa [is_list] using hB
      · exact hin L (.inr hL)
    · cases h0
    · cases h0
  | case5 A B C hBC =>
    intro T h
    rw [join1] at h
    simp [hBC] at h
  | case6 => intro T _; exact .inr (.inl rfl)
  | case7 => intro T _; exact .inr (.inr ⟨_, rfl, rfl⟩)
  | case8 A => intro T _; exact .inr (.inr ⟨_, rfl, rfl⟩)
  | case9 x h1 h2 h3 h4 h5 h6 =>
    intro T h
    rw [join1] at h
    · cases h
    all_goals assumption

theorem join1_of_joinable (A : Ty) (h : joinable A) : ∃ T, join1 A = .ok T := by
  rcases h with ⟨hA, hin⟩ | rfl | ⟨M, rfl, hM⟩
  · exact ⟨_, join1_list_of_lists A hA hin⟩
  · exact ⟨Ty._nothing, by simp [join1, assert_maybe, is_maybe]⟩
  · cases M <;> simp [is_maybe] at hM
    · exact ⟨Ty._nothing, by simp [join1, assert_maybe, is_maybe]⟩
    · rename_i X
      exact ⟨Ty._some X, by simp [join1, assert_maybe, is_maybe]⟩

theorem count_of_list (A : Ty) (h : is_list A = true) :
    count A = .ok (.int ((elems A).length % 18446744073709551616)) := by
  have := count_chain (elems A)
  rwa [chain_elems A h] at this

theorem count_defined_only (A : Ty) (v : Val) (h : count A = .ok v) :
    is_list A = true ∨ is_maybe A = true := by
  by_cases hl : is_list A = true
  · exact .inl hl
  · right
    cases A <;> first | rfl | (simp [count, hl] at h)

/-! ## The measure of join1 -/

theorem cells_chain (As : List Ty) : cells (chain As) = As.length := by
  induction As with
  | nil => rfl
  | cons A As ih => rw [chain_cons, cells, ih, List.length_cons]

theorem weight_chain (LLs : List (List Ty)) :
    weight (chain (LLs.map chain)) = LLs.length + (LLs.map List.length).sum := by
  induction LLs with
  | nil => rfl
  | cons Bs LLs ih =>
    rw [List.map_cons, chain_cons, weight, ih, cells_chain]
    simp only [List.length_cons, List.map_cons, List.sum_cons]
    omega

/-! ## No static_assert of the list family fails -/

theorem map_chain_cases (F : Ty → Option Ty) (As : List Ty) :
    (∃ Bs, map F (chain As) = .ok (chain Bs)) ∨ map F (chain As) = .error .undefined := by
  induction As with
  | nil => exact .inl ⟨[], rfl⟩
  | cons A As ih =>
    rw [chain_cons, map]
    simp only [is_list_chain, if_true]
    cases hF : F A with
    | none => exact .inr rfl
    | some b =>
      rcases ih with ⟨Bs, hBs⟩ | he
      · refine .inl ⟨b :: Bs, ?_⟩
        simp [hBs, assert_list, is_list]
      · exact .inr (by simp [he])

theorem join1_cases (A : Ty) :
    (∃ T, join1 A = .ok T ∧ (is_list A = true → is_list T = true)) ∨
      join1 A = .error .undefined := by
  induction A using join1.induct with
  | case1 => exact .inl ⟨Ty._nil, join1_nil, fun h => h⟩
  | case2 B hB ih =>
    rw [join1]
    simp only [hB, if_true]
    rcases ih with ⟨t, ht, hl⟩ | he
    · exact .inl ⟨t, by simp [ht, assert_list_of (hl hB)], fun _ => hl hB⟩
    · exact .inr (by simp [he])
  | case3 B hB => exact .inr (by rw [join1]; simp [hB])
  | case4 A B C hBC ih =>
    rw [join1]
    simp only [hBC, if_true]
    have hC : is_list C = true := by simp at hBC; exact hBC.2
    rcases ih with ⟨t, ht, hl⟩ | he
    · have hlt : is_list (Ty._cons A t) = true := by
        simpa [is_list] using hl (by simpa [is_list] using hC)
      exact .inl ⟨Ty._cons A t, by simp [ht, assert_list_of hlt], fun _ => hlt⟩
    · exact .inr (by simp [he])
  | case5 A B C hBC => exact .inr (by rw [join1]; simp [hBC])
  | case6 =>
    exact .inl ⟨Ty._nothing, by simp [join1, assert_maybe, is_maybe], by simp [is_list]⟩
  | case7 =>
    exact .inl ⟨Ty._nothing, by simp [join1, assert_maybe, is_maybe], by simp [is_list]⟩
  | case8 A =>
    exact .inl ⟨Ty._some A, by simp [join1, assert_maybe, is_maybe], by simp [is_list]⟩
  | case9 x h1 h2 h3 h4 h5 h6 =>
    right
    rw [join1]
    all_goals assumption

theorem list_bind_cases (F : Ty → Option Ty) (L : Ty) (hL : is_list L = true) :
    (∃ T, list.bind L F = .ok T ∧ is_list T = true) ∨
      list.bind L F = .error .undefined := by
  rw [list.bind, if_pos hL]
  rcases map_chain_cases F (elems L) with ⟨Bs, hBs⟩ | he
  · rw [chain_elems L hL] at hBs
    rw [hBs, ok_bind]
    rcases join1_cases (chain Bs) with ⟨T, hT, hl⟩ | he
    · have := hl (is_list_chain Bs)
      exact .inl ⟨T, by simp [hT, assert_list_of this], this⟩
    · exact .inr (by simp [he])
  · rw [chain_elems L hL] at he
    exact .inr (by simp [he])

/-! ## bind on lists -/

theorem forall₂_images (F : Ty → Option Ty) (f : Ty → List Ty) (As : List Ty)
    (h : ∀ a ∈ As, F a = Option.some (chain (f a))) :
    List.Forall₂ (fun a b => F a = Option.some b) As ((As.map f).map chain) := by
  induction As with
  | nil => exact .nil
  | cons A As ih =>
    exact .cons (h A (List.mem_cons_self _ _))
      (ih fun a ha => h a (List.mem_cons_of_mem _ ha))

theorem list_bind_chain (F : Ty → Option Ty) (f : Ty → List Ty) (As : List Ty)
    (h : ∀ a ∈ As, F a = Option.some (chain (f a))) :
    list.bind (chain As) F = .ok (chain (As.map f).flatten) := by
  rw [list.bind, if_pos (is_list_chain _), map_chain F As _ (forall₂_images F f As h),
    ok_bind, join1_chain, ok_bind, assert_list_of (is_list_chain _)]

theorem elems_at_spec (F : Ty → Option Ty) (a R : Ty) (hF : F a = Option.some R)
    (hR : is_list R = true) : F a = Option.some (chain (elems_at F a)) := by
  rw [elems_at, hF, chain_elems R hR]

theorem flatten_map_flatten (f g : Ty → List Ty) (As : List Ty) :
    (((As.map f).flatten).map g).flatten
      = (As.map fun a => ((f a).map g).flatten).flatten := by
  induction As with
  | nil => rfl
  | cons A As ih =>
    simp only [List.map_cons, List.flatten_cons, List.map_append, List.flatten_append, ih]

/-! ## count of a flattened list -/

theorem plus_count_counts {acc : Ty} {v : Int} (h : counts acc v) (Ls : List Ty) :
    ∃ acc2, plus_count acc (chain Ls) = Option.some acc2 ∧
      counts acc2 ((v + Ls.length) % 18446744073709551616) := by
  obtain ⟨ht, hv, h0, h1⟩ := h
  have hs : (v + (Ls.length : Int) % 18446744073709551616) % 18446744073709551616
      = (v + Ls.length) % 18446744073709551616 := by omega
  have hlo : 0 ≤ (v + (Ls.length : Int)) % 18446744073709551616 := by omega
  have hhi : (v + (Ls.length : Int)) % 18446744073709551616 ≤ 18446744073709551615 := by
    omega
  have hfit : fits (.scalar .ullong) ((v + (Ls.length : Int)) % 18446744073709551616)
      = true := by
    simp [fits, Scalar.range, hlo, hhi]
  have hval : has_value (.scalar .ullong)
      (.int ((v + (Ls.length : Int)) % 18446744073709551616)) = true := by
    rw [has_value]; exact hfit
  refine ⟨.constant (.scalar .ullong) (.int ((v + Ls.length) % 18446744073709551616)),
    ?_, ?_⟩
  · rw [plus_count, ht, hv, count_chain]
    simp only [hs, hfit, if_true]
  · refine ⟨?_, ?_, hlo, by omega⟩
    · rw [value_type, if_pos hval]
    · rw [value, if_pos hval]

theorem fold_plus_count_chain (LLs : List (List Ty)) (acc : Ty) (v : Int)
    (h : counts acc v) :
    (fold plus_count acc (chain (LLs.map chain)) >>= fun t => member (value t))
      = .ok (.int ((v + (LLs.map List.length).sum) % 18446744073709551616)) := by
  induction LLs generalizing acc v with
  | nil =>
    obtain ⟨_, hv, h0, h1⟩ := h
    have : v % 18446744073709551616 = v := by omega
    simp [fold, hv, this]
  | cons Ls LLs ih =>
    obtain ⟨acc2, h2, hc⟩ := plus_count_counts h Ls
    rw [List.map_cons, chain_cons, fold]
    simp only [is_list_chain, if_true, h2, member_some, ok_bind]
    rw [ih acc2 _ hc]
    congr 2
    simp only [List.map_cons, List.sum_cons, Nat.cast_add]
    omega

theorem count_join1_chain (LLs : List (List Ty)) :
    (join1 (chain (LLs.map chain)) >>= count)
      = .ok (.int (((LLs.map List.length).sum : Nat) % 18446744073709551616)) := by
  rw [join1_chain, ok_bind, count_chain, List.length_flatten]

theorem forall₂_counts (LLs : List (List Ty)) :
    List.Forall₂ (fun L c => count L = .ok (.int c)) (LLs.map chain)
      (LLs.map fun Ls => (Ls.length : Int) % 18446744073709551616) := by
  induction LLs with
  | nil => exact .nil
  | cons Ls LLs ih => exact .cons (count_chain Ls) ih

theorem sum_counts_mod (LLs : List (List Ty)) :
    (LLs.map fun Ls => (Ls.length : Int) % 18446744073709551616).sum % 18446744073709551616
      = (((LLs.map List.length).sum : Nat) : Int) % 18446744073709551616 := by
  induction LLs with
  | nil => rfl
  | cons Ls LLs ih =>
    simp only [List.map_cons, List.sum_cons, Nat.cast_add]
    omega

theorem sum_counts_nonneg (LLs : List (List Ty)) :
    0 ≤ (LLs.map fun Ls => (Ls.length : Int) % 18446744073709551616).sum := by
  induction LLs with
  | nil => exact le_refl _
  | cons Ls LLs ih =>
    simp only [List.map_cons, List.sum_cons]
    omega

theorem list_of_lists_eq (LL : Ty) (hLL : is_list LL = true)
    (hin : ∀ L ∈ elems LL, is_list L = true) :
    chain (((elems LL).map elems).map chain) = LL := by
  rw [List.map_map]
  have hm : List.map (chain ∘ elems) (elems LL) = elems LL := map_chain_elems _ hin
  rw [hm, chain_elems LL hLL]

/-! ## The claims -/

/-- C1: on a list `LL` whose elements are all lists, `join1` yields the concatenation, in
order, of the inner lists; in particular `join1` of `make_list<L1, L2, L3>` is
`L1 ++ L2 ++ L3` for lists `L1`, `L2`, `L3`. -/
theorem join1_is_concatenation (LL L1 L2 L3 : Ty) (hLL : is_list LL = true)
    (hin : ∀ L ∈ elems LL, is_list L = true)
    (h1 : is_list L1 = true) (h2 : is_list L2 = true) (h3 : is_list L3 = true) :
    join1 LL = .ok (chain ((elems LL).map elems).flatten) ∧
    (make_list [L1, L2, L3] >>= join1) = .ok (chain (elems L1 ++ elems L2 ++ elems L3)) := by
  refine ⟨join1_list_of_lists LL hLL hin, ?_⟩
  rw [make_list_eq, ok_bind, join1_list_of_lists _ (is_list_chain _)]
  · simp [elems]
  · intro L hL
    simp only [elems_chain, List.mem_cons, List.mem_singleton, List.not_mem_nil,
      or_false] at hL
    rcases hL with rfl | rfl | rfl <;> assumption

/-- Witness of C1 on `test_list_join` (test/list.cc:62-70). -/
theorem join1_is_concatenation_witness :
    join1 (chain [test_list_join.L1, test_list_join.L2, test_list_join.L3])
        = .ok test_list_join.Lx ∧
      (make_list [test_list_join.L1, test_list_join.L2, test_list_join.L3] >>= join1)
        = .ok test_list_join.Lx :=
  join1_is_concatenation
    (chain [test_list_join.L1, test_list_join.L2, test_list_join.L3])
    test_list_join.L1 test_list_join.L2 test_list_join.L3
    (by decide) (by decide) (by decide) (by decide) (by decide)

/-- C2: when `F` is defined on every `Ai` with `F<Ai>::type = Bi`, `map` over
`make_list<A0, ..., An>` is `make_list<B0, ..., Bn>`: one application per element, position
by position; `map` over the empty list is the empty list. -/
theorem map_applies_elementwise (F : Ty → Option Ty) (As Bs : List Ty)
    (h : List.Forall₂ (fun a b => F a = Option.some b) As Bs) :
    (make_list As >>= map F) = make_list Bs ∧ map F nil = .ok nil := by
  refine ⟨?_, rfl⟩
  rw [make_list_eq, make_list_eq, ok_bind, map_chain F As Bs h]

/-- Witness of C2 on `test_list_map` (test/list.cc:29-54). -/
theorem map_applies_elementwise_witness :
    (make_list test_list_map.Ls >>= map test_list_map.make_unsigned)
        = make_list test_list_map.Lx ∧
      map test_list_map.make_unsigned nil = .ok nil :=
  map_applies_elementwise test_list_map.make_unsigned test_list_map.Ls test_list_map.Lx
    (.cons rfl (.cons rfl (.cons rfl (.cons rfl (.cons rfl .nil)))))

/-- C3: `count` is the number of elements held: for a sequence of `n+1` types, `count` of
`make_list<A0, ..., An>` is `n+1`, and 0 for the empty sequence, computed as the fold of
`_plus1` from `zero_type<unsigned long long>`; `count` of `Nothing` is 0 and `count` of
`Some<A>` is 1.  The member is an `unsigned long long` (funcpp-common.cc:169), so the
number of elements is taken to be one of its values, as it is for every parameter pack
that can be written; in general the member is the length modulo `2^64`. -/
theorem count_is_number_of_elements (As : List Ty) (A : Ty)
    (h : As.length < 18446744073709551616) :
    (make_list As >>= count) = .ok (.int As.length) ∧
    (make_list [] >>= count) = .ok (.int 0) ∧
    (make_list As >>= count)
      = (make_list As >>= fun L =>
          fold _plus1 (.zero_type (.scalar .ullong)) L >>= fun t => member (value t)) ∧
    (∀ Bs : List Ty,
      (make_list Bs >>= count) = .ok (.int ((Bs.length : Int) % 18446744073709551616))) ∧
    count nothing = .ok (.int 0) ∧ count (some A) = .ok (.int 1) := by
  have hmod : ((As.length : Int) % 18446744073709551616) = As.length := by omega
  refine ⟨?_, ?_, ?_, ?_, ?_, ?_⟩
  · rw [make_list_eq, ok_bind, count_chain, hmod]
  · rw [make_list_eq, ok_bind, count_chain]
    rfl
  · have hf := fold_plus1_chain As _ 0 counts_zero
    rw [Int.zero_add] at hf
    rw [make_list_eq, ok_bind, ok_bind, count_chain, hf]
  · intro Bs
    rw [make_list_eq, ok_bind, count_chain]
  · simp [count, nothing, value, fits, Scalar.range]
  · simp [count, some, value, fits, Scalar.range]

/-- Witness of C3 on `test_list_count` (test/list.cc:56-60). -/
theorem count_is_number_of_elements_witness :
    [Ty.scalar .char, .scalar .short, .scalar .int, .scalar .long].length
        < 18446744073709551616 ∧
      (make_list [.scalar .char, .scalar .short, .scalar .int, .scalar .long] >>= count)
        = .ok (.int 4) :=
  ⟨by decide,
    (count_is_number_of_elements
      [.scalar .char, .scalar .short, .scalar .int, .scalar .long]
      (.scalar .int) (by decide)).1⟩

/-- C4: for a list `L` and a transformer `F` defined on each element of `L`, `count` of
`map<F, L>` is `count` of `L`. -/
theorem count_map_eq_count (F : Ty → Option Ty) (L : Ty) (hL : is_list L = true)
    (hF : ∀ a ∈ elems L, (F a).isSome = true) :
    (map F L >>= count) = count L := by
  obtain ⟨Bs, hBs⟩ := exists_images F (elems L) hF
  have hm := map_chain F (elems L) Bs hBs
  rw [chain_elems L hL] at hm
  rw [hm, ok_bind, count_chain, ← hBs.length_eq, ← count_chain, chain_elems L hL]

/-- Witness of C4 on the list and transformer of `test_list_map` (test/list.cc:29-54). -/
theorem count_map_eq_count_witness :
    (map test_list_map.make_unsigned (chain test_list_map.Ls) >>= count)
      = count (chain test_list_map.Ls) :=
  count_map_eq_count test_list_map.make_unsigned (chain test_list_map.Ls)
    (by decide) (by decide)

/-- C5: `fold` is a strict left fold: over `make_list<A0, ..., An>` it is
`F(...F(F(Acc, A0), A1)..., An)`, undefined as soon as one application is, and `Acc` over
the empty list; over `Nothing` it is `Acc` and over `Some<A>` it is `F(Acc, A)`; nothing is
assumed of `F`. -/
theorem fold_is_left_fold (F : Ty → Ty → Option Ty) (Acc A : Ty) (As : List Ty) :
    (make_list As >>= fold F Acc) = member (As.foldlM F Acc) ∧
    (∀ f : Ty → Ty → Ty,
      (make_list As >>= fold (fun I X => Option.some (f I X)) Acc)
        = .ok (As.foldl f Acc)) ∧
    fold F Acc nil = .ok Acc ∧
    fold F Acc nothing = .ok Acc ∧
    fold F Acc (some A) = member (F Acc A) := by
  refine ⟨?_, ?_, rfl, rfl, rfl⟩
  · rw [make_list_eq, ok_bind, fold_chain]
  · intro f
    rw [make_list_eq, ok_bind, fold_chain, foldlM_total]
    rfl

/-- C6: left identity in both families: when `F<A>::type` is a list, the list family's
`bind<pure<A>, F>` is `F<A>::type`; when it is an optional, the optional family's
`bind<pure<A>, F>` is `F<A>::type`. -/
theorem monad_left_identity (F : Ty → Option Ty) (A R : Ty) (hF : F A = Option.some R) :
    (is_list R = true → (list.pure A >>= fun MA => list.bind MA F) = .ok R) ∧
    (is_maybe R = true → (maybe.pure A >>= fun MA => maybe.bind MA F) = .ok R) := by
  constructor
  · intro hR
    rw [list_pure_eq, ok_bind]
    simp [list.bind, is_list, map, hF, assert_list, join1_singleton R hR, hR]
  · intro hR
    show (assert_maybe (Ty._some A) >>= fun MA => maybe.bind MA F) = .ok R
    rw [assert_maybe_of (t := Ty._some A) rfl, ok_bind]
    simp only [maybe.bind, hF, member_some, ok_bind]
    exact assert_maybe_of hR

/-- Witness of C6: a transformer into two-element lists and one into optionals, at `int`. -/
theorem monad_left_identity_witness :
    ((list.pure (.scalar .int) >>= fun MA =>
        list.bind MA (fun X => Option.some (chain [X, X])))
      = .ok (chain [.scalar .int, .scalar .int])) ∧
    ((maybe.pure (.scalar .int) >>= fun MA =>
        maybe.bind MA (fun X => Option.some (Ty._some (.ptr X))))
      = .ok (Ty._some (.ptr (.scalar .int)))) :=
  ⟨(monad_left_identity (fun X => Option.some (chain [X, X])) (.scalar .int)
      (chain [.scalar .int, .scalar .int]) rfl).1 (by decide),
   (monad_left_identity (fun X => Option.some (Ty._some (.ptr X))) (.scalar .int)
      (Ty._some (.ptr (.scalar .int))) rfl).2 (by decide)⟩

/-- C7: right identity in both families: for a list `MA` the list family's
`bind<MA, pure>` is `MA`; for an optional `MA` the optional family's `bind<MA, pure>` is
`MA`. -/
theorem monad_right_identity (MA : Ty) :
    (is_list MA = true → list.bind MA (fun A => asArg (list.pure A)) = .ok MA) ∧
    (is_maybe MA = true → maybe.bind MA (fun A => asArg (maybe.pure A)) = .ok MA) := by
  constructor
  · intro h
    have hb := list_bind_pure (elems MA)
    rwa [chain_elems MA h] at hb
  · intro h
    cases MA <;> simp [is_maybe] at h <;> rfl

/-- Witness of C7: a four-element list, and `Some<int>`. -/
theorem monad_right_identity_witness :
    list.bind test_list_join.L1 (fun A => asArg (list.pure A)) = .ok test_list_join.L1 ∧
    maybe.bind (some (.scalar .int)) (fun A => asArg (maybe.pure A))
      = .ok (some (.scalar .int)) :=
  ⟨(monad_right_identity test_list_join.L1).1 (by decide),
   (monad_right_identity (some (.scalar .int))).2 (by decide)⟩

/-- C8: `make_list<A0, ..., An>` is `cons<A0, cons<A1, ... cons<An, nil>>>`, the right fold
of `cons` over the sequence ending in the empty list, and `make_list<>` is the empty
list. -/
theorem make_list_is_right_fold (As : List Ty) :
    make_list As = As.foldr (fun A tail => tail >>= cons A) (.ok nil) ∧
    make_list [] = .ok nil := by
  refine ⟨?_, rfl⟩
  rw [make_list_eq, foldr_cons_eq]

/-- C9: shape closure: `make_list` of any sequence yields a type, and that type satisfies
`list_type`, so neither `static_assert` of `make_list` fails; `nothing::type` and
`some<A>::type` satisfy `maybe_type`. -/
theorem shape_closure (As : List Ty) (A : Ty) :
    (∃ T, make_list As = .ok T ∧ is_list T = true) ∧
    is_maybe nothing = true ∧ is_maybe (some A) = true :=
  ⟨⟨chain As, make_list_eq As, is_list_chain As⟩, rfl, rfl⟩

/-- C10: `is_list<A>` holds exactly when `A` is the empty list or a cell whose tail is a
list; it is false for `void`, `int`, `int[6]`, and for a chain of cells that ends in
anything but the empty list. -/
theorem is_list_is_inductive_predicate (A E : Ty) (As : List Ty) :
    (is_list A = true ↔ A = nil ∨ ∃ H T, A = Ty._cons H T ∧ is_list T = true) ∧
    is_list (.scalar .void) = false ∧ is_list (.scalar .int) = false ∧
    is_list (.array (.scalar .int) 6) = false ∧
    (E ≠ Ty._nil → (∀ H T, E ≠ Ty._cons H T) → is_list (As.foldr Ty._cons E) = false) := by
  refine ⟨?_, rfl, rfl, rfl, ?_⟩
  · cases A <;> simp [is_list, nil]
    exact ⟨fun h => ⟨_, _, ⟨rfl, rfl⟩, h⟩, fun ⟨_, _, ⟨_, hT⟩, h⟩ => hT ▸ h⟩
  · intro h1 h2
    rw [is_list_foldr]
    cases E <;> simp [is_list] at h1 h2 ⊢

/-- Witness of C10: `_cons<char, _cons<short, int>>` is not a list. -/
theorem is_list_is_inductive_predicate_witness :
    is_list (Ty._cons (.scalar .char) (Ty._cons (.scalar .short) (.scalar .int))) = false :=
  (is_list_is_inductive_predicate Ty._nil (.scalar .int)
    [.scalar .char, .scalar .short]).2.2.2.2 (by decide) (by intro H T; exact Ty.noConfusion)

/-- C11: `refl<A, B>::value` is true exactly when `A` and `B` are the same type: true of
`A` with itself, false of distinct types; of two lists made by `make_list` it is true
exactly when the two sequences of elements are the same. -/
theorem refl_is_type_identity (A B : Ty) (As Bs : List Ty) :
    (refl A B = true ↔ A = B) ∧ refl A A = true ∧ (A ≠ B → refl A B = false) ∧
    ∃ LA LB, make_list As = .ok LA ∧ make_list Bs = .ok LB ∧
      (refl LA LB = true ↔ As = Bs) := by
  refine ⟨by simp [refl], by simp [refl], fun h => by simp [refl, h],
    chain As, chain Bs, make_list_eq As, make_list_eq Bs, ?_⟩
  constructor
  · intro h
    exact chain_injective As Bs (by simpa [refl] using h)
  · intro h
    simp [refl, h]

/-- Witness of C11: `refl<int, long>` is false (funcpp-common.cc:109). -/
theorem refl_is_type_identity_witness :
    refl (.scalar .int) (.scalar .long) = false :=
  (refl_is_type_identity (.scalar .int) (.scalar .long) [] []).2.2.1 (by decide)

/-- C12: `cons<A, B>` yields a type exactly when `B` satisfies `list_type`: for a list `B`
it is `_cons<A, B>`, which is a list again; for any other `B` the constraint rejects the
instantiation. -/
theorem cons_requires_list_tail (A B : Ty) :
    ((∃ T, cons A B = .ok T) ↔ is_list B = true) ∧
    (is_list B = true → cons A B = .ok (Ty._cons A B) ∧ is_list (Ty._cons A B) = true) ∧
    (is_list B = false → cons A B = .error .constraint) := by
  by_cases h : is_list B = true
  · simp [cons, h, is_list]
  · simp [cons, h]

/-- Witness of C12: `CONS(short, NIL)` of test/list.cc:10 is accepted, `cons<char, int>`
is rejected. -/
theorem cons_requires_list_tail_witness :
    (cons (.scalar .short) nil = .ok (Ty._cons (.scalar .short) nil) ∧
      is_list (Ty._cons (.scalar .short) nil) = true) ∧
    cons (.scalar .char) (.scalar .int) = .error .constraint :=
  ⟨(cons_requires_list_tail (.scalar .short) nil).2.1 (by decide),
   (cons_requires_list_tail (.scalar .char) (.scalar .int)).2.2 (by decide)⟩

/-- C13: `count` and `join1` have no generic definition: `count<A>` has a value exactly
when `A` is a list or an optional; `join1<A>` has a type exactly when `A` is a list all of
whose elements are lists, or `Nothing`, or `Some` of an optional; an unrelated type, a list
with an element that is no list, and `Some` of a type that is no optional are rejected. -/
theorem count_join1_have_no_fallback (A : Ty) :
    ((∃ v, count A = .ok v) ↔ is_list A = true ∨ is_maybe A = true) ∧
    ((∃ T, join1 A = .ok T) ↔
      (is_list A = true ∧ ∀ L ∈ elems A, is_list L = true) ∨ A = Ty._nothing ∨
        ∃ M, A = Ty._some M ∧ is_maybe M = true) ∧
    count (.scalar .int) = .error .undefined ∧
    join1 (.scalar .int) = .error .undefined ∧
    join1 (chain [.scalar .int]) = .error .undefined ∧
    join1 (some (.scalar .int)) = .error .undefined := by
  refine ⟨⟨?_, ?_⟩, ⟨?_, join1_of_joinable A⟩, ?_, ?_, ?_, ?_⟩
  · rintro ⟨v, hv⟩
    exact count_defined_only A v hv
  · rintro (h | h)
    · exact ⟨_, count_of_list A h⟩
    · cases A <;> simp [is_maybe] at h
      · exact ⟨.int 0, by simp [count, value, fits, Scalar.range]⟩
      · exact ⟨.int 1, by simp [count, value, fits, Scalar.range]⟩
  · rintro ⟨T, hT⟩
    exact joinable_of_join1 A T hT
  · simp [count, is_list]
  · simp [join1]
  · simp [join1, chain]
  · simp [join1, some]

/-- C14: on a type `A` that is neither a list nor an optional, a cell whose tail is no list
included, `map<F, A>` is `F<A>` and `fold<F, I, A>` is `F<I, A>`; on a list or an optional
the family's specialisation is taken: `map<F, Empty>` is `Empty` whatever `F<Empty>`
is. -/
theorem map_fold_generic_fallback (F : Ty → Option Ty) (G : Ty → Ty → Option Ty)
    (I A : Ty) (hl : is_list A = false) (hm : is_maybe A = false) :
    map F A = member (F A) ∧ fold G I A = member (G I A) ∧
    (∀ H T, is_list T = false →
      map F (Ty._cons H T) = member (F (Ty._cons H T)) ∧
      fold G I (Ty._cons H T) = member (G I (Ty._cons H T))) ∧
    map F nil = .ok nil ∧ fold G I nil = .ok I ∧
    map F nothing = .ok nothing ∧ fold G I nothing = .ok I ∧
    (F nil ≠ Option.some nil → map F nil ≠ member (F nil)) := by
  refine ⟨?_, ?_, ?_, rfl, rfl, rfl, rfl, ?_⟩
  · cases A <;> simp_all [map, is_list, is_maybe]
  · cases A <;> simp_all [fold, is_list, is_maybe]
  · intro H T hT
    simp [map, fold, hT]
  · intro h hmap
    apply h
    cases hF : F nil with
    | none => rw [hF] at hmap; cases hmap
    | some X =>
      rw [hF] at hmap
      have : nil = X := by
        have h2 : (Except.ok nil : Result Ty) = Except.ok X := hmap
        injection h2
      rw [this]

/-- Witness of C14: `map<make_unsigned, int>` is `make_unsigned<int>::type`. -/
theorem map_fold_generic_fallback_witness :
    map test_list_map.make_unsigned (.scalar .int) = .ok (.scalar .uint) :=
  (map_fold_generic_fallback test_list_map.make_unsigned (fun I _ => Option.some I)
    (.scalar .void) (.scalar .int) (by decide) (by decide)).1

/-- C15: `map` keeps the presence of an optional: `map<F, Nothing>` is `Nothing` for every
`F`, applied or not, and `map<F, Some<A>>` is `Some<F<A>::type>` when `F` is defined
on `A`. -/
theorem map_preserves_presence (F : Ty → Option Ty) (A B : Ty)
    (h : F A = Option.some B) :
    (∀ G : Ty → Option Ty, map G nothing = .ok nothing) ∧
    map F (some A) = .ok (some B) := by
  refine ⟨fun _ => rfl, ?_⟩
  simp [map, some, h, assert_maybe, is_maybe]

/-- Witness of C15: `map<make_unsigned, Some<int>>` is `Some<unsigned int>`. -/
theorem map_preserves_presence_witness :
    map test_list_map.make_unsigned (some (.scalar .int)) = .ok (some (.scalar .uint)) :=
  (map_preserves_presence test_list_map.make_unsigned (.scalar .int) (.scalar .uint) rfl).2

/-- C16: `join1` removes one level of optional nesting: `Nothing` and `Some<Nothing>`
become `Nothing`, `Some<Some<A>>` becomes `Some<A>`; whenever `join1` of an optional
yields a type, the type satisfies `maybe_type`. -/
theorem join1_collapses_optional (A M T : Ty) :
    join1 nothing = .ok nothing ∧ join1 (some nothing) = .ok nothing ∧
    join1 (some (some A)) = .ok (some A) ∧
    (is_maybe M = true → join1 M = .ok T → is_maybe T = true) := by
  refine ⟨?_, ?_, ?_, ?_⟩
  · simp [join1, nothing, assert_maybe, is_maybe]
  · simp [join1, nothing, some, assert_maybe, is_maybe]
  · simp [join1, some, assert_maybe, is_maybe]
  · intro hM hT
    cases M <;> simp [is_maybe] at hM
    · rw [join1, assert_maybe_eq_ok] at hT
      rw [hT.2]; rfl
    · rename_i X
      cases X <;> simp [join1, assert_maybe_eq_ok] at hT
      · rw [hT.2]; rfl
      · rw [hT.2]; rfl

/-- Witness of C16: the type `join1<Some<Some<int>>>` is an optional. -/
theorem join1_collapses_optional_witness :
    is_maybe (some (.scalar .int)) = true :=
  (join1_collapses_optional (.scalar .int) (some (some (.scalar .int)))
    (some (.scalar .int))).2.2.2 (by decide)
    (join1_collapses_optional (.scalar .int) nothing nothing).2.2.1

/-- C17: on an optional `MA` the directly specialised `bind<MA, F>` yields a type exactly
when `join1<map<F, MA>>` does, and then the same type: `Nothing` gives `Nothing` whatever
`F` is, `Some<A>` gives `F<A>::type`, which has to be an optional. -/
theorem maybe_bind_agrees_with_map_join1 (F : Ty → Option Ty) (MA T : Ty)
    (h : is_maybe MA = true) :
    (maybe.bind MA F = .ok T ↔ (map F MA >>= join1) = .ok T) ∧
    (maybe.bind MA F = .ok T ↔ maybe.bind_by_map_join1 MA F = .ok T) ∧
    maybe.bind nothing F = .ok nothing ∧
    (∀ A R, F A = Option.some R → is_maybe R = true → maybe.bind (some A) F = .ok R) ∧
    (∀ A R, F A = Option.some R → is_maybe R = false →
      maybe.bind (some A) F = .error .assertFailed) := by
  refine ⟨?_, ?_, rfl, ?_, ?_⟩
  · cases MA <;> simp [is_maybe] at h
    · simp [maybe.bind, map, join1, assert_maybe, is_maybe]
    · rename_i A
      cases hF : F A with
      | none => simp [maybe.bind, map, hF]
      | some R =>
        cases R <;> simp [maybe.bind, map, hF, join1, assert_maybe, is_maybe]
  · cases MA <;> simp [is_maybe] at h
    · simp [maybe.bind, maybe.bind_by_map_join1, map, join1, assert_maybe, is_maybe]
    · rename_i A
      cases hF : F A with
      | none => simp [maybe.bind, maybe.bind_by_map_join1, map, hF, is_maybe]
      | some R =>
        cases R <;>
          simp [maybe.bind, maybe.bind_by_map_join1, map, hF, join1, assert_maybe, is_maybe]
  · intro A R hF hR
    simp [maybe.bind, some, hF, assert_maybe, hR]
  · intro A R hF hR
    simp [maybe.bind, some, hF, assert_maybe, hR]

/-- Witness of C17: `Some<int>` bound to a transformer into optionals of pointers. -/
theorem maybe_bind_agrees_with_map_join1_witness :
    (maybe.bind (some (.scalar .int)) (fun X => Option.some (Ty._some (.ptr X)))
        = .ok (Ty._some (.ptr (.scalar .int))) ↔
      (map (fun X => Option.some (Ty._some (.ptr X))) (some (.scalar .int)) >>= join1)
        = .ok (Ty._some (.ptr (.scalar .int)))) :=
  (maybe_bind_agrees_with_map_join1 (fun X => Option.some (Ty._some (.ptr X)))
    (some (.scalar .int)) (Ty._some (.ptr (.scalar .int))) (by decide)).1

/-- C18: `join1` on lists is a total function by well-founded recursion on the measure
`weight`, which on a list of lists is the number of outer cells plus the number of
elements of all inner lists: skipping an empty head and promoting the first element of a
non-empty head both decrease it strictly, and `join1` yields a type on every list of
lists. -/
theorem join1_terminates (LLs : List (List Ty)) (A B C LL : Ty) :
    weight (chain (LLs.map chain)) = LLs.length + (LLs.map List.length).sum ∧
    weight B < weight (Ty._cons Ty._nil B) ∧
    weight (Ty._cons B C) < weight (Ty._cons (Ty._cons A B) C) ∧
    (is_list LL = true → (∀ L ∈ elems LL, is_list L = true) → ∃ T, join1 LL = .ok T) := by
  refine ⟨weight_chain LLs, ?_, ?_, fun h1 h2 => ⟨_, join1_list_of_lists LL h1 h2⟩⟩
  · simp only [weight, cells]; omega
  · simp only [weight, cells]; omega

/-- Witness of C18: `join1` yields a type on the list of lists of `test_list_join`. -/
theorem join1_terminates_witness :
    ∃ T, join1 (chain [test_list_join.L1, test_list_join.L2, test_list_join.L3]) = .ok T :=
  (join1_terminates [] Ty._nil Ty._nil Ty._nil
    (chain [test_list_join.L1, test_list_join.L2, test_list_join.L3])).2.2.2
    (by decide) (by decide)

/-- C19: in the list family every result is a list and no `static_assert(list_type<type>)`
fails: for a list `L`, `map<F, L>`, `join1<L>` and `bind<L, F>`, and `pure<A>` for any `A`,
are never rejected by the assertion, and a type they yield satisfies `list_type`. -/
theorem list_family_results_are_lists (F : Ty → Option Ty) (L A T : Ty)
    (hL : is_list L = true) :
    (map F L ≠ .error .assertFailed ∧ (map F L = .ok T → is_list T = true)) ∧
    (join1 L ≠ .error .assertFailed ∧ (join1 L = .ok T → is_list T = true)) ∧
    (list.pure A ≠ .error .assertFailed ∧ (list.pure A = .ok T → is_list T = true)) ∧
    (list.bind L F ≠ .error .assertFailed ∧ (list.bind L F = .ok T → is_list T = true)) := by
  refine ⟨?_, ?_, ?_, ?_⟩
  · have h := map_chain_cases F (elems L)
    rw [chain_elems L hL] at h
    rcases h with ⟨Bs, hBs⟩ | he
    · rw [hBs]
      refine ⟨by simp, fun hT => ?_⟩
      injection hT with hT
      rw [← hT]; exact is_list_chain Bs
    · rw [he]
      exact ⟨by simp, fun hT => by cases hT⟩
  · rcases join1_cases L with ⟨T2, hT2, hl⟩ | he
    · rw [hT2]
      refine ⟨by simp, fun hT => ?_⟩
      injection hT with hT
      rw [← hT]; exact hl hL
    · rw [he]
      exact ⟨by simp, fun hT => by cases hT⟩
  · rw [list_pure_eq]
    refine ⟨by simp, fun hT => ?_⟩
    injection hT with hT
    rw [← hT]; rfl
  · rcases list_bind_cases F L hL with ⟨T2, hT2, hl⟩ | he
    · rw [hT2]
      refine ⟨by simp, fun hT => ?_⟩
      injection hT with hT
      rw [← hT]; exact hl
    · rw [he]
      exact ⟨by simp, fun hT => by cases hT⟩

/-- Witness of C19 on the list and transformer of `test_list_map`. -/
theorem list_family_results_are_lists_witness :
    map test_list_map.make_unsigned (chain test_list_map.Ls) ≠ .error .assertFailed ∧
    list.bind (chain test_list_map.Ls) test_list_map.make_unsigned
      ≠ .error .assertFailed :=
  ⟨(list_family_results_are_lists test_list_map.make_unsigned (chain test_list_map.Ls)
      Ty._nil Ty._nil (by decide)).1.1,
   (list_family_results_are_lists test_list_map.make_unsigned (chain test_list_map.Ls)
      Ty._nil Ty._nil (by decide)).2.2.2.1⟩

/-- C21: associativity of the list monad: for a list `M`, a transformer `F` that yields a
list on every element of `M` and a transformer `G` that yields a list on every element of
those lists, `bind<bind<M, F>, G>` is `bind<M, H>` with `H<x> = bind<F<x>, G>`, and both
yield a type. -/
theorem list_bind_associative (F G : Ty → Option Ty) (M : Ty) (hM : is_list M = true)
    (hFG : ∀ a ∈ elems M, ∃ R, F a = Option.some R ∧ is_list R = true ∧
      ∀ b ∈ elems R, ∃ S, G b = Option.some S ∧ is_list S = true) :
    (list.bind M F >>= fun MB => list.bind MB G) = list.bind M (list.bind_after F G) ∧
    ∃ T, list.bind M (list.bind_after F G) = .ok T := by
  have hF : ∀ a ∈ elems M, F a = Option.some (chain (elems_at F a)) := by
    intro a ha
    obtain ⟨R, hR, hl, _⟩ := hFG a ha
    exact elems_at_spec F a R hR hl
  have hG : ∀ a ∈ elems M, ∀ b ∈ elems_at F a,
      G b = Option.some (chain (elems_at G b)) := by
    intro a ha b hb
    obtain ⟨R, hR, _, hin⟩ := hFG a ha
    rw [elems_at, hR] at hb
    obtain ⟨S, hS, hl⟩ := hin b hb
    exact elems_at_spec G b S hS hl
  have hH : ∀ a ∈ elems M, list.bind_after F G a
      = Option.some (chain (((elems_at F a).map (elems_at G)).flatten)) := by
    intro a ha
    rw [list.bind_after, hF a ha]
    simp only
    rw [list_bind_chain G (elems_at G) _ (hG a ha)]
    rfl
  have h1 := list_bind_chain F (elems_at F) (elems M) hF
  have h2 := list_bind_chain G (elems_at G) ((elems M).map (elems_at F)).flatten (by
    intro b hb
    obtain ⟨l, hl, hbl⟩ := List.mem_flatten.mp hb
    obtain ⟨a, ha, rfl⟩ := List.mem_map.mp hl
    exact hG a ha b hbl)
  have h3 := list_bind_chain (list.bind_after F G)
    (fun a => ((elems_at F a).map (elems_at G)).flatten) (elems M) hH
  rw [chain_elems M hM] at h1 h3
  rw [h1, ok_bind, h2, h3, flatten_map_flatten]
  exact ⟨rfl, _, rfl⟩

/-- Witness of C21: on the list of `int` and `char`, with a transformer that doubles its
argument and one that wraps a pointer to its argument in a list. -/
theorem list_bind_associative_witness :
    (list.bind (chain [.scalar .int, .scalar .char]) (fun X => Option.some (chain [X, X]))
        >>= fun MB => list.bind MB (fun X => Option.some (chain [.ptr X])))
      = list.bind (chain [.scalar .int, .scalar .char])
          (list.bind_after (fun X => Option.some (chain [X, X]))
            (fun X => Option.some (chain [.ptr X]))) :=
  (list_bind_associative (fun X => Option.some (chain [X, X]))
    (fun X => Option.some (chain [.ptr X])) (chain [.scalar .int, .scalar .char])
    (by decide)
    (fun a _ => ⟨chain [a, a], rfl, is_list_chain _,
      fun b _ => ⟨chain [.ptr b], rfl, is_list_chain _⟩⟩)).1

/-- C22: flattening neither drops nor duplicates elements: on a list `LL` of lists,
`count` of `join1<LL>` is the fold over `LL` of the accumulator transformer that adds the
count of an element, from `zero_type<unsigned long long>`; that is the sum of the counts of
the inner lists in `unsigned long long` arithmetic (modulo `2^64`), and the plain sum
whenever that is below `2^64`. -/
theorem count_join1_is_sum_of_counts (LL : Ty) (hLL : is_list LL = true)
    (hin : ∀ L ∈ elems LL, is_list L = true) :
    (join1 LL >>= count)
      = (fold plus_count (.zero_type (.scalar .ullong)) LL >>= fun t => member (value t)) ∧
    ∃ cs : List Int, List.Forall₂ (fun L c => count L = .ok (.int c)) (elems LL) cs ∧
      (join1 LL >>= count) = .ok (.int (cs.sum % 18446744073709551616)) ∧
      (cs.sum < 18446744073709551616 → (join1 LL >>= count) = .ok (.int cs.sum)) := by
  have e := list_of_lists_eq LL hLL hin
  generalize (elems LL).map elems = LLs at e
  subst e
  have hj := count_join1_chain LLs
  have hf := fold_plus_count_chain LLs _ 0 counts_zero
  rw [Int.zero_add] at hf
  refine ⟨by rw [hj, hf],
    LLs.map (fun Ls => (Ls.length : Int) % 18446744073709551616), ?_, ?_, ?_⟩
  · rw [elems_chain]
    exact forall₂_counts LLs
  · rw [hj, sum_counts_mod]
  · intro hlt
    have h0 := sum_counts_nonneg LLs
    rw [hj, ← sum_counts_mod]
    congr 2
    omega

/-- Witness of C22 on the list of lists of `test_list_join` (test/list.cc:62-70): the
counts 4, 2 and 2 add up to 8. -/
theorem count_join1_is_sum_of_counts_witness :
    (join1 (chain [test_list_join.L1, test_list_join.L2, test_list_join.L3]) >>= count)
      = (fold plus_count (.zero_type (.scalar .ullong))
          (chain [test_list_join.L1, test_list_join.L2, test_list_join.L3])
          >>= fun t => member (value t)) :=
  (count_join1_is_sum_of_counts
    (chain [test_list_join.L1, test_list_join.L2, test_list_join.L3])
    (by decide) (by decide)).1

end funcpp
